import Mathlib

/-!
Shallow embedding of `src/failsafehandler.py` (class `FailsafeHandler`).

The dispatcher keeps, for every configured handler (sink), a mutable record
`self.__timeouts[handler] = {'active': …, 'attempts': …, 'reset_time': …}`
keyed by the handler object itself, and walks the ordered handler chain in
`emit`, running each delivery call under a deadline via `__timeout`.

Modelling conventions:
- sinks (handler objects) are identified by natural numbers; the Python dict
  `self.__timeouts` becomes an association list keyed by sink id, with
  Python's insert-or-overwrite semantics;
- `time.time()` is sampled once per dispatch call and passed as `now : Nat`
  (within one `emit` the source re-reads the clock, but only ever compares it
  against, or adds it to, the same quantities);
- the behaviour of one underlying `handler.emit(record)` call is an oracle
  `CallBehavior`: whether the spawned thread is still alive when
  `join(timeout_duration)` returns, and, if it finished, the exception it
  stored (if any).  The thread that overruns the deadline is abandoned by the
  source; its eventual fate is exactly the data that the oracle does not need
  to provide for the model to be deterministic, which is proved below;
- in the source the key `reset_time` is absent until first written; it is
  only ever read under guards (`not active`, or `attempts > 0`) that imply it
  has been written, so the model totalises it with initial value 0;
- `__timeouts[handler]` lookups never raise `KeyError` for sinks of the chain
  (reset() populates every key), so the model totalises the lookup with the
  freshly-reset entry.
-/

namespace Failsafe

/-- Outcome oracle for one underlying `handler.emit(record)` call placed on an
`InterruptableThread`: `timedOut` is `it.isAlive()` after
`it.join(timeout_duration)`; `result` is the exception string the thread
stored (`None` when the call completed without raising). -/
structure CallBehavior where
  timedOut : Bool
  result : Option String
  deriving DecidableEq

/-- One value of the per-handler dict `self.__timeouts[handler]`. -/
structure HandlerState where
  active : Bool
  attempts : Nat
  reset_time : Nat
  deriving DecidableEq

/-- Constructor parameters of `FailsafeHandler` that `emit` consults
(`timeout` itself only parametrises the deadline and is opaque here). -/
structure Config where
  timeout : Nat
  attempts : Nat
  retry_timeout : Nat

/-- The dict `self.__timeouts`, keyed by sink identity. -/
abbrev States := List (Nat × HandlerState)

/-- Entry produced for a fresh key by `reset` / `__reset_handler`:
`{'active': True, 'attempts': 0}` (no `reset_time` yet, totalised as 0). -/
def initEntry : HandlerState := ⟨true, 0, 0⟩

/-- Python dict read `self.__timeouts[h]`, totalised with `initEntry`
(unreachable default: `reset()` populates every configured sink's key). -/
def lookupState : States → Nat → HandlerState
  | [], _ => initEntry
  | (k, v) :: rest, h => if k = h then v else lookupState rest h

/-- Python dict write `self.__timeouts[h] = s` (overwrite in place, append a
new key at the end). -/
def insertState : States → Nat → HandlerState → States
  | [], h, s => [(h, s)]
  | (k, v) :: rest, h, s =>
      if k = h then (k, s) :: rest else (k, v) :: insertState rest h s

/-- `reset()`: one entry per configured sink, keyed by sink identity. -/
def mkStates (chain : List Nat) : States :=
  chain.foldl (fun st h => insertState st h initEntry) []

/-- `__timeout_handler(handler)`: deactivate and schedule the retry. -/
def timeoutHandlerUpd (cfg : Config) (now : Nat) (s : HandlerState) : HandlerState :=
  { s with active := false, reset_time := now + cfg.retry_timeout }

/-- `__reset_handler(handler)`: reactivate and zero the counter
(`reset_time` is left as is). -/
def resetHandlerUpd (s : HandlerState) : HandlerState :=
  { s with active := true, attempts := 0 }

/-- Observable actions of one dispatch: a bounded call placed on some sink
(`probe = true` when made from the inactive-but-due branch), and an
`exception_handler.emit(record)` call. -/
inductive Event where
  | sinkCall (h : Nat) (probe : Bool) (res : String)
  | excCall
  deriving DecidableEq

/-- `__timeout(handler.emit, record, timeout_duration)`: the returned string
and whether `self.exception_handler.emit(record)` was invoked on the way.
Mirrors: `if is_timeout: return "Timeout"`, then
`if it.result: exception_handler.emit(record); return "Exception "+str(...)`,
else `return "Success"`. -/
def timeoutCall (b : CallBehavior) : String × Bool :=
  if b.timedOut then ("Timeout", false)
  else
    match b.result with
    | some ex => ("Exception " ++ ex, true)
    | none => ("Success", false)

/-- Trace of one `__timeout` call: the bounded sink call, followed by the
exception-sink call when one was made. -/
def callEvents (h : Nat) (probe : Bool) (rb : String × Bool) : List Event :=
  Event.sinkCall h probe rb.1 :: (if rb.2 then [Event.excCall] else [])

/-- The `elif attempts > 0 and reset_time < time.time(): attempts = 0`
mutation of `emit` in isolation (lazy decay of the timeout counter). -/
def decayState (st : States) (h : Nat) (now : Nat) : States :=
  let s := lookupState st h
  if 0 < s.attempts ∧ s.reset_time < now then insertState st h { s with attempts := 0 }
  else st

/-- `FailsafeHandler.emit(record)`: walks the chain in order; returns the
final `self.__timeouts`, the final value of the local `handled`, and the
chronological event trace.  Each guard below is the corresponding source
condition with `time.time()` replaced by `now`. -/
def emit (cfg : Config) (bhv : Nat → CallBehavior) (now : Nat) :
    List Nat → States → States × Bool × List Event
  | [], st => (st, false, [])
  | h :: rest, st =>
    let s := lookupState st h
    if s.active = false ∧ s.reset_time < now then
      -- inactive but past the retry timeout: try it (a probe)
      let rb := timeoutCall (bhv h)
      if rb.1 = "Success" then
        (insertState st h (resetHandlerUpd s), true, callEvents h true rb)
      else if rb.1 = "Timeout" then
        let r := emit cfg bhv now rest (insertState st h (timeoutHandlerUpd cfg now s))
        (r.1, r.2.1, callEvents h true rb ++ r.2.2)
      else
        -- exception: break (exception sink already engaged inside __timeout)
        (st, false, callEvents h true rb)
    else
      -- elif attempts > 0 and reset_time < time.time(): attempts = 0
      let st1 := decayState st h now
      let s1 := lookupState st1 h
      if s1.active = false then
        -- inactive and not yet due: skip to the next handler
        emit cfg bhv now rest st1
      else
        let rb := timeoutCall (bhv h)
        if rb.1 = "Timeout" then
          let s2 := { s1 with attempts := s1.attempts + 1,
                              reset_time := now + cfg.retry_timeout }
          let s3 := if cfg.attempts ≤ s2.attempts then timeoutHandlerUpd cfg now s2 else s2
          let r := emit cfg bhv now rest (insertState st1 h s3)
          (r.1, r.2.1, callEvents h false rb ++ r.2.2)
        else
          -- Success or exception: handled = True; break (no state update)
          (st1, true, callEvents h false rb)

/-- A sequence of dispatch calls at the given times (one record each),
returning the final states and the per-record traces in order. -/
def dispatchSeq (cfg : Config) (bhv : Nat → CallBehavior) (chain : List Nat) :
    List Nat → States → States × List (List Event)
  | [], st => (st, [])
  | t :: ts, st =>
    let r := emit cfg bhv t chain st
    let tl := dispatchSeq cfg bhv chain ts r.1
    (tl.1, r.2.2 :: tl.2)

/-- Sink `h` went from inactive (`Cooling`) before the dispatch to active
after it. -/
def transitioned (st st2 : States) (h : Nat) : Prop :=
  (lookupState st h).active = false ∧ (lookupState st2 h).active = true

/-- The key set of the `self.__timeouts` dict. -/
def dictKeys (st : States) : List Nat := st.map Prod.fst

/-- Oracle where every sink's call overruns the deadline. -/
def bhvTimeoutAll : Nat → CallBehavior := fun _ => ⟨true, none⟩

/-- Oracle where sink 0 overruns the deadline and every other sink
completes without raising. -/
def bhvMainTimeout : Nat → CallBehavior :=
  fun h => if h = 0 then ⟨true, none⟩ else ⟨false, none⟩

/-- Oracle where sink 0 raises before the deadline and every other sink
completes without raising. -/
def bhvMainExc : Nat → CallBehavior :=
  fun h => if h = 0 then ⟨false, some "boom"⟩ else ⟨false, none⟩

/-- Oracle where every sink completes without raising. -/
def bhvOkAll : Nat → CallBehavior := fun _ => ⟨false, none⟩

/-- Oracle where every sink overruns the deadline and the abandoned call
later dies with an exception: indistinguishable, for the dispatcher, from
`bhvTimeoutAll`. -/
def bhvTimeoutLate : Nat → CallBehavior := fun _ => ⟨true, some "late"⟩

/-- Attribute names bound in the instance dict by `__init__`/`reset()`
(after Python name mangling of `self.__timeouts = {}` inside the class
body).  The base `logging.Handler.__init__` adds a few more (`level`,
`filters`, `formatter`, `lock`); like these, neither `main_handler` nor the
unmangled `__timeouts` is ever assigned. -/
def instanceAttrs : List String :=
  ["handlers", "exception_handler", "timeout", "attempts", "retry_timeout",
   "_FailsafeHandler__timeouts"]

/-- Result of an attribute access on a `FailsafeHandler` instance. -/
inductive AttrResult where
  | found (attr : String)
  | delegated (name : String)
  | recursionError
  deriving DecidableEq

/-- `getattr(fh, name)`: normal lookup first (instance dict), then
`FailsafeHandler.__getattr__`.  The literal comparison
`name == "__timeouts"` is not subject to name mangling, and the mangled
read `self.__timeouts` in its body resolves to the existing
`_FailsafeHandler__timeouts` entry.  The fallback
`getattr(self.main_handler, name)` first has to resolve
`self.main_handler`, an attribute that is never assigned, so it re-enters
`__getattr__` with `"main_handler"`; `fuel` models the interpreter's
recursion limit. -/
def getattrModel : Nat → String → AttrResult
  | 0, _ => .recursionError
  | fuel + 1, name =>
    if name ∈ instanceAttrs then .found name
    else if name = "__timeouts" then .found "_FailsafeHandler__timeouts"
    else
      match getattrModel fuel "main_handler" with
      | .found _ => .delegated name
      | .delegated _ => .delegated name
      | .recursionError => .recursionError

theorem lookup_insert_self (st : States) (h : Nat) (s : HandlerState) :
    lookupState (insertState st h s) h = s := by
  induction st with
  | nil => simp [insertState, lookupState]
  | cons kv rest ih =>
      obtain ⟨k, v⟩ := kv
      by_cases hk : k = h
      · simp [insertState, lookupState, hk]
      · simp [insertState, lookupState, hk, ih]

theorem lookup_insert_ne (st : States) (h k : Nat) (s : HandlerState) (hne : k ≠ h) :
    lookupState (insertState st h s) k = lookupState st k := by
  induction st with
  | nil => simp [insertState, lookupState, Ne.symm hne]
  | cons kv rest ih =>
      obtain ⟨k', v⟩ := kv
      by_cases hk : k' = h
      · subst hk
        simp [insertState, lookupState, Ne.symm hne]
      · simp only [insertState, if_neg hk, lookupState]
        by_cases hk2 : k' = k
        · simp [hk2]
        · simp [hk2, ih]

theorem lookup_decay_self (st : States) (h now : Nat) :
    lookupState (decayState st h now) h =
      (if 0 < (lookupState st h).attempts ∧ (lookupState st h).reset_time < now
       then { lookupState st h with attempts := 0 } else lookupState st h) := by
  by_cases hc : 0 < (lookupState st h).attempts ∧ (lookupState st h).reset_time < now
  · simp [decayState, hc, lookup_insert_self]
  · simp [decayState, hc]

theorem lookup_decay_ne (st : States) (h k now : Nat) (hne : k ≠ h) :
    lookupState (decayState st h now) k = lookupState st k := by
  by_cases hc : 0 < (lookupState st h).attempts ∧ (lookupState st h).reset_time < now
  · simp [decayState, hc, lookup_insert_ne _ _ _ _ hne]
  · simp [decayState, hc]

theorem lookup_decay_active (st : States) (h k now : Nat) :
    (lookupState (decayState st h now) k).active = (lookupState st k).active := by
  by_cases hk : k = h
  · subst hk
    rw [lookup_decay_self]
    split <;> rfl
  · rw [lookup_decay_ne _ _ _ _ hk]

theorem lookup_decay_reset_time (st : States) (h k now : Nat) :
    (lookupState (decayState st h now) k).reset_time = (lookupState st k).reset_time := by
  by_cases hk : k = h
  · subst hk
    rw [lookup_decay_self]
    split <;> rfl
  · rw [lookup_decay_ne _ _ _ _ hk]

theorem exc_string_ne_timeout (ex : String) : "Exception " ++ ex ≠ "Timeout" := by
  intro hcontra
  have hlen : ("Exception " ++ ex).length = ("Timeout" : String).length := by
    rw [hcontra]
  rw [String.length_append] at hlen
  have h1 : ("Exception " : String).length = 10 := rfl
  have h2 : ("Timeout" : String).length = 7 := rfl
  omega

theorem exc_string_ne_success (ex : String) : "Exception " ++ ex ≠ "Success" := by
  intro hcontra
  have hlen : ("Exception " ++ ex).length = ("Success" : String).length := by
    rw [hcontra]
  rw [String.length_append] at hlen
  have h1 : ("Exception " : String).length = 10 := rfl
  have h2 : ("Success" : String).length = 7 := rfl
  omega

theorem timeoutCall_of_timedOut (b : CallBehavior) (hb : b.timedOut = true) :
    timeoutCall b = ("Timeout", false) := by
  simp [timeoutCall, hb]

theorem timeoutCall_of_ok (b : CallBehavior) (hb : b.timedOut = false)
    (hr : b.result = none) : timeoutCall b = ("Success", false) := by
  simp [timeoutCall, hb, hr]

theorem timeoutCall_of_exc (b : CallBehavior) (ex : String) (hb : b.timedOut = false)
    (hr : b.result = some ex) : timeoutCall b = ("Exception " ++ ex, true) := by
  simp [timeoutCall, hb, hr]

/-- Every bounded call lands in one of the three source outcomes. -/
theorem timeoutCall_trichotomy (b : CallBehavior) :
    timeoutCall b = ("Timeout", false) ∨ timeoutCall b = ("Success", false) ∨
      ∃ ex, timeoutCall b = ("Exception " ++ ex, true) := by
  cases hb : b.timedOut
  · cases hr : b.result with
    | none => exact Or.inr (Or.inl (timeoutCall_of_ok b hb hr))
    | some ex => exact Or.inr (Or.inr ⟨ex, timeoutCall_of_exc b ex hb hr⟩)
  · exact Or.inl (timeoutCall_of_timedOut b hb)

theorem emit_nil (cfg : Config) (bhv : Nat → CallBehavior) (now : Nat) (st : States) :
    emit cfg bhv now [] st = (st, false, []) := rfl

/-- Inactive sink, retry not yet due: skipped, no call made. -/
theorem emit_skip (cfg : Config) (bhv : Nat → CallBehavior) (now h : Nat)
    (rest : List Nat) (st : States)
    (hact : (lookupState st h).active = false)
    (hrt : ¬ (lookupState st h).reset_time < now) :
    emit cfg bhv now (h :: rest) st = emit cfg bhv now rest st := by
  have hd : decayState st h now = st := by
    unfold decayState
    exact if_neg (fun hc => hrt hc.2)
  have hs1 : (lookupState (decayState st h now) h).active = false := by
    rw [lookup_decay_active]; exact hact
  simp [emit, hact, hrt, hs1, hd]

/-- Inactive but due: a successful probe reactivates the sink and stops. -/
theorem emit_probe_success (cfg : Config) (bhv : Nat → CallBehavior) (now h : Nat)
    (rest : List Nat) (st : States)
    (hact : (lookupState st h).active = false)
    (hrt : (lookupState st h).reset_time < now)
    (hb : timeoutCall (bhv h) = ("Success", false)) :
    emit cfg bhv now (h :: rest) st =
      (insertState st h (resetHandlerUpd (lookupState st h)), true,
        [Event.sinkCall h true "Success"]) := by
  simp [emit, hact, hrt, hb, callEvents]

/-- Inactive but due: a timed-out probe re-deactivates the sink, extends the
retry deadline and moves on to the rest of the chain. -/
theorem emit_probe_timeout (cfg : Config) (bhv : Nat → CallBehavior) (now h : Nat)
    (rest : List Nat) (st : States)
    (hact : (lookupState st h).active = false)
    (hrt : (lookupState st h).reset_time < now)
    (hb : timeoutCall (bhv h) = ("Timeout", false)) :
    emit cfg bhv now (h :: rest) st =
      ((emit cfg bhv now rest
          (insertState st h (timeoutHandlerUpd cfg now (lookupState st h)))).1,
       (emit cfg bhv now rest
          (insertState st h (timeoutHandlerUpd cfg now (lookupState st h)))).2.1,
       Event.sinkCall h true "Timeout" ::
         (emit cfg bhv now rest
           (insertState st h (timeoutHandlerUpd cfg now (lookupState st h)))).2.2) := by
  simp [emit, hact, hrt, hb, callEvents]

/-- Inactive but due: a probe that raises engages the exception sink inside
`__timeout` and breaks the walk with no state update. -/
theorem emit_probe_exc (cfg : Config) (bhv : Nat → CallBehavior) (now h : Nat)
    (rest : List Nat) (st : States) (ex : String)
    (hact : (lookupState st h).active = false)
    (hrt : (lookupState st h).reset_time < now)
    (hb : timeoutCall (bhv h) = ("Exception " ++ ex, true)) :
    emit cfg bhv now (h :: rest) st =
      (st, false, [Event.sinkCall h true ("Exception " ++ ex), Event.excCall]) := by
  simp [emit, hact, hrt, hb, callEvents, exc_string_ne_timeout, exc_string_ne_success]

/-- Active sink whose bounded call times out: counter incremented, retry
deadline pushed out, deactivated once the threshold is reached, walk goes on. -/
theorem emit_attempt_timeout (cfg : Config) (bhv : Nat → CallBehavior) (now h : Nat)
    (rest : List Nat) (st : States)
    (hact : (lookupState st h).active = true)
    (hb : timeoutCall (bhv h) = ("Timeout", false)) :
    emit cfg bhv now (h :: rest) st =
      (let s1 := lookupState (decayState st h now) h
       let s2 := { s1 with attempts := s1.attempts + 1,
                           reset_time := now + cfg.retry_timeout }
       let s3 := if cfg.attempts ≤ s1.attempts + 1 then timeoutHandlerUpd cfg now s2
                 else s2
       let r := emit cfg bhv now rest (insertState (decayState st h now) h s3)
       (r.1, r.2.1, Event.sinkCall h false "Timeout" :: r.2.2)) := by
  have hs1 : (lookupState (decayState st h now) h).active = true := by
    rw [lookup_decay_active]; exact hact
  simp [emit, hact, hb, hs1, callEvents]

/-- Active sink whose bounded call does not time out (Success or exception):
`handled = True; break`, with no circuit-state update beyond lazy decay. -/
theorem emit_attempt_pass (cfg : Config) (bhv : Nat → CallBehavior) (now h : Nat)
    (rest : List Nat) (st : States)
    (hact : (lookupState st h).active = true)
    (hb : (timeoutCall (bhv h)).1 ≠ "Timeout") :
    emit cfg bhv now (h :: rest) st =
      (decayState st h now, true, callEvents h false (timeoutCall (bhv h))) := by
  have hs1 : (lookupState (decayState st h now) h).active = true := by
    rw [lookup_decay_active]; exact hact
  simp [emit, hact, hb, hs1, callEvents]

/-- A dispatch call never touches the circuit state of a sink outside the
chain it walks. -/
theorem emit_lookup_not_mem (cfg : Config) (bhv : Nat → CallBehavior) (now : Nat) :
    ∀ (chain : List Nat) (st : States) (k : Nat), k ∉ chain →
      lookupState (emit cfg bhv now chain st).1 k = lookupState st k := by
  intro chain
  induction chain with
  | nil => intro st k _; rfl
  | cons h rest ih =>
      intro st k hk
      have hkh : k ≠ h := fun he => hk (he ▸ List.mem_cons_self h rest)
      have hkr : k ∉ rest := fun hm => hk (List.mem_cons_of_mem h hm)
      cases hA : (lookupState st h).active with
      | false =>
          by_cases hrt : (lookupState st h).reset_time < now
          · rcases timeoutCall_trichotomy (bhv h) with hb | hb | ⟨ex, hb⟩
            · rw [emit_probe_timeout cfg bhv now h rest st hA hrt hb]
              dsimp only
              rw [ih _ k hkr, lookup_insert_ne _ _ _ _ hkh]
            · rw [emit_probe_success cfg bhv now h rest st hA hrt hb]
              dsimp only
              rw [lookup_insert_ne _ _ _ _ hkh]
            · rw [emit_probe_exc cfg bhv now h rest st ex hA hrt hb]
          · rw [emit_skip cfg bhv now h rest st hA hrt, ih _ k hkr]
      | true =>
          rcases timeoutCall_trichotomy (bhv h) with hb | hb | ⟨ex, hb⟩
          · rw [emit_attempt_timeout cfg bhv now h rest st hA hb]
            dsimp only
            rw [ih _ k hkr, lookup_insert_ne _ _ _ _ hkh, lookup_decay_ne _ _ _ _ hkh]
          · rw [emit_attempt_pass cfg bhv now h rest st hA (by simp [hb])]
            dsimp only
            rw [lookup_decay_ne _ _ _ _ hkh]
          · rw [emit_attempt_pass cfg bhv now h rest st hA
                (by rw [hb]; exact exc_string_ne_timeout ex)]
            dsimp only
            rw [lookup_decay_ne _ _ _ _ hkh]

/-- Every bounded call recorded in a dispatch trace is placed on a sink of
the walked chain. -/
theorem sinkCall_mem_chain (cfg : Config) (bhv : Nat → CallBehavior) (now : Nat) :
    ∀ (chain : List Nat) (st : States) (k : Nat) (p : Bool) (r : String),
      Event.sinkCall k p r ∈ (emit cfg bhv now chain st).2.2 → k ∈ chain := by
  intro chain
  induction chain with
  | nil => intro st k p r hm; simp [emit_nil] at hm
  | cons h rest ih =>
      intro st k p r hm
      cases hA : (lookupState st h).active with
      | false =>
          by_cases hrt : (lookupState st h).reset_time < now
          · rcases timeoutCall_trichotomy (bhv h) with hb | hb | ⟨ex, hb⟩
            · rw [emit_probe_timeout cfg bhv now h rest st hA hrt hb] at hm
              dsimp only at hm
              rcases List.mem_cons.mp hm with he | hm2
              · obtain ⟨hk, -, -⟩ := Event.sinkCall.inj he
                exact hk ▸ List.mem_cons_self h rest
              · exact List.mem_cons_of_mem h (ih _ k p r hm2)
            · rw [emit_probe_success cfg bhv now h rest st hA hrt hb] at hm
              dsimp only at hm
              obtain ⟨hk, -, -⟩ := Event.sinkCall.inj (List.mem_singleton.mp hm)
              exact hk ▸ List.mem_cons_self h rest
            · rw [emit_probe_exc cfg bhv now h rest st ex hA hrt hb] at hm
              dsimp only at hm
              rcases List.mem_cons.mp hm with he | hm2
              · obtain ⟨hk, -, -⟩ := Event.sinkCall.inj he
                exact hk ▸ List.mem_cons_self h rest
              · simp at hm2
          · rw [emit_skip cfg bhv now h rest st hA hrt] at hm
            exact List.mem_cons_of_mem h (ih _ k p r hm)
      | true =>
          rcases timeoutCall_trichotomy (bhv h) with hb | hb | ⟨ex, hb⟩
          · rw [emit_attempt_timeout cfg bhv now h rest st hA hb] at hm
            dsimp only at hm
            rcases List.mem_cons.mp hm with he | hm2
            · obtain ⟨hk, -, -⟩ := Event.sinkCall.inj he
              exact hk ▸ List.mem_cons_self h rest
            · exact List.mem_cons_of_mem h (ih _ k p r hm2)
          · rw [emit_attempt_pass cfg bhv now h rest st hA (by simp [hb])] at hm
            rw [hb] at hm
            dsimp only [callEvents] at hm
            simp only [if_neg Bool.false_ne_true, List.mem_singleton] at hm
            obtain ⟨hk, -, -⟩ := Event.sinkCall.inj hm
            exact hk ▸ List.mem_cons_self h rest
          · rw [emit_attempt_pass cfg bhv now h rest st hA
              (by rw [hb]; exact exc_string_ne_timeout ex)] at hm
            rw [hb] at hm
            dsimp only [callEvents] at hm
            simp only [if_pos rfl] at hm
            rcases List.mem_cons.mp hm with he | hm2
            · obtain ⟨hk, -, -⟩ := Event.sinkCall.inj he
              exact hk ▸ List.mem_cons_self h rest
            · simp at hm2

/-- If some bounded call in the trace returned `"Success"`, the local
`handled` flag ends the dispatch `True`. -/
theorem handled_of_success_mem (cfg : Config) (bhv : Nat → CallBehavior) (now : Nat) :
    ∀ (chain : List Nat) (st : States) (k : Nat) (p : Bool),
      Event.sinkCall k p "Success" ∈ (emit cfg bhv now chain st).2.2 →
        (emit cfg bhv now chain st).2.1 = true := by
  intro chain
  induction chain with
  | nil => intro st k p hm; simp [emit_nil] at hm
  | cons h rest ih =>
      intro st k p hm
      cases hA : (lookupState st h).active with
      | false =>
          by_cases hrt : (lookupState st h).reset_time < now
          · rcases timeoutCall_trichotomy (bhv h) with hb | hb | ⟨ex, hb⟩
            · rw [emit_probe_timeout cfg bhv now h rest st hA hrt hb] at hm ⊢
              dsimp only at hm ⊢
              rcases List.mem_cons.mp hm with he | hm2
              · obtain ⟨-, -, hr⟩ := Event.sinkCall.inj he
                simp at hr
              · exact ih _ k p hm2
            · rw [emit_probe_success cfg bhv now h rest st hA hrt hb]
            · rw [emit_probe_exc cfg bhv now h rest st ex hA hrt hb] at hm
              dsimp only at hm
              rcases List.mem_cons.mp hm with he | hm2
              · obtain ⟨-, -, hr⟩ := Event.sinkCall.inj he
                exact absurd hr.symm (exc_string_ne_success ex)
              · simp at hm2
          · rw [emit_skip cfg bhv now h rest st hA hrt] at hm ⊢
            exact ih _ k p hm
      | true =>
          rcases timeoutCall_trichotomy (bhv h) with hb | hb | ⟨ex, hb⟩
          · rw [emit_attempt_timeout cfg bhv now h rest st hA hb] at hm ⊢
            dsimp only at hm ⊢
            rcases List.mem_cons.mp hm with he | hm2
            · obtain ⟨-, -, hr⟩ := Event.sinkCall.inj he
              simp at hr
            · exact ih _ k p hm2
          · rw [emit_attempt_pass cfg bhv now h rest st hA (by simp [hb])]
          · rw [emit_attempt_pass cfg bhv now h rest st hA
              (by rw [hb]; exact exc_string_ne_timeout ex)]

/-- A `"Success"` call terminates the walk at once, so one dispatch trace can
hold at most one such call. -/
theorem success_mem_unique (cfg : Config) (bhv : Nat → CallBehavior) (now : Nat) :
    ∀ (chain : List Nat) (st : States) (k : Nat) (p : Bool) (k2 : Nat) (p2 : Bool),
      Event.sinkCall k p "Success" ∈ (emit cfg bhv now chain st).2.2 →
      Event.sinkCall k2 p2 "Success" ∈ (emit cfg bhv now chain st).2.2 →
        k = k2 ∧ p = p2 := by
  intro chain
  induction chain with
  | nil => intro st k p k2 p2 hm _; simp [emit_nil] at hm
  | cons h rest ih =>
      intro st k p k2 p2 hm hm2
      cases hA : (lookupState st h).active with
      | false =>
          by_cases hrt : (lookupState st h).reset_time < now
          · rcases timeoutCall_trichotomy (bhv h) with hb | hb | ⟨ex, hb⟩
            · rw [emit_probe_timeout cfg bhv now h rest st hA hrt hb] at hm hm2
              dsimp only at hm hm2
              rcases List.mem_cons.mp hm with he | hmt
              · obtain ⟨-, -, hr⟩ := Event.sinkCall.inj he
                simp at hr
              · rcases List.mem_cons.mp hm2 with he2 | hmt2
                · obtain ⟨-, -, hr⟩ := Event.sinkCall.inj he2
                  simp at hr
                · exact ih _ k p k2 p2 hmt hmt2
            · rw [emit_probe_success cfg bhv now h rest st hA hrt hb] at hm hm2
              dsimp only at hm hm2
              obtain ⟨hk, hp, -⟩ := Event.sinkCall.inj (List.mem_singleton.mp hm)
              obtain ⟨hk2, hp2, -⟩ := Event.sinkCall.inj (List.mem_singleton.mp hm2)
              exact ⟨hk.trans hk2.symm, hp.trans hp2.symm⟩
            · rw [emit_probe_exc cfg bhv now h rest st ex hA hrt hb] at hm
              dsimp only at hm
              rcases List.mem_cons.mp hm with he | hmt
              · obtain ⟨-, -, hr⟩ := Event.sinkCall.inj he
                exact absurd hr.symm (exc_string_ne_success ex)
              · simp at hmt
          · rw [emit_skip cfg bhv now h rest st hA hrt] at hm hm2
            exact ih _ k p k2 p2 hm hm2
      | true =>
          rcases timeoutCall_trichotomy (bhv h) with hb | hb | ⟨ex, hb⟩
          · rw [emit_attempt_timeout cfg bhv now h rest st hA hb] at hm hm2
            dsimp only at hm hm2
            rcases List.mem_cons.mp hm with he | hmt
            · obtain ⟨-, -, hr⟩ := Event.sinkCall.inj he
              simp at hr
            · rcases List.mem_cons.mp hm2 with he2 | hmt2
              · obtain ⟨-, -, hr⟩ := Event.sinkCall.inj he2
                simp at hr
              · exact ih _ k p k2 p2 hmt hmt2
          · rw [emit_attempt_pass cfg bhv now h rest st hA (by simp [hb])] at hm hm2
            rw [hb] at hm hm2
            dsimp only [callEvents] at hm hm2
            simp only [if_neg Bool.false_ne_true, List.mem_singleton] at hm hm2
            obtain ⟨hk, hp, -⟩ := Event.sinkCall.inj hm
            obtain ⟨hk2, hp2, -⟩ := Event.sinkCall.inj hm2
            exact ⟨hk.trans hk2.symm, hp.trans hp2.symm⟩
          · rw [emit_attempt_pass cfg bhv now h rest st hA
              (by rw [hb]; exact exc_string_ne_timeout ex)] at hm
            rw [hb] at hm
            dsimp only [callEvents] at hm
            simp only [if_pos rfl] at hm
            rcases List.mem_cons.mp hm with he | hmt
            · obtain ⟨-, -, hr⟩ := Event.sinkCall.inj he
              exact absurd hr.symm (exc_string_ne_success ex)
            · simp at hmt

/-- A bounded call that raised (`Failed` outcome) ends the dispatch: the
trace is some timed-out calls, then that call, then exactly the one
exception-sink delivery, and nothing after. -/
theorem exc_mem_decomposition (cfg : Config) (bhv : Nat → CallBehavior) (now : Nat) :
    ∀ (chain : List Nat) (st : States) (k : Nat) (p : Bool) (ex : String),
      Event.sinkCall k p ("Exception " ++ ex) ∈ (emit cfg bhv now chain st).2.2 →
        ∃ pre, (emit cfg bhv now chain st).2.2 =
            pre ++ [Event.sinkCall k p ("Exception " ++ ex), Event.excCall] ∧
          ∀ e ∈ pre, ∃ k2 p2, e = Event.sinkCall k2 p2 "Timeout" := by
  intro chain
  induction chain with
  | nil => intro st k p ex hm; simp [emit_nil] at hm
  | cons h rest ih =>
      intro st k p ex hm
      cases hA : (lookupState st h).active with
      | false =>
          by_cases hrt : (lookupState st h).reset_time < now
          · rcases timeoutCall_trichotomy (bhv h) with hb | hb | ⟨ex2, hb⟩
            · rw [emit_probe_timeout cfg bhv now h rest st hA hrt hb] at hm ⊢
              dsimp only at hm ⊢
              rcases List.mem_cons.mp hm with he | hmt
              · obtain ⟨-, -, hr⟩ := Event.sinkCall.inj he
                exact absurd hr (exc_string_ne_timeout ex)
              · obtain ⟨pre, hpre, hall⟩ := ih _ k p ex hmt
                refine ⟨Event.sinkCall h true "Timeout" :: pre,
                  by rw [hpre, List.cons_append], ?_⟩
                intro e he
                rcases List.mem_cons.mp he with he1 | he2
                · exact ⟨h, true, he1⟩
                · exact hall e he2
            · rw [emit_probe_success cfg bhv now h rest st hA hrt hb] at hm
              dsimp only at hm
              obtain ⟨-, -, hr⟩ := Event.sinkCall.inj (List.mem_singleton.mp hm)
              exact absurd hr (exc_string_ne_success ex)
            · rw [emit_probe_exc cfg bhv now h rest st ex2 hA hrt hb] at hm ⊢
              dsimp only at hm ⊢
              rcases List.mem_cons.mp hm with he | hmt
              · exact ⟨[], by rw [← he]; simp, by simp⟩
              · simp at hmt
          · rw [emit_skip cfg bhv now h rest st hA hrt] at hm ⊢
            exact ih _ k p ex hm
      | true =>
          rcases timeoutCall_trichotomy (bhv h) with hb | hb | ⟨ex2, hb⟩
          · rw [emit_attempt_timeout cfg bhv now h rest st hA hb] at hm ⊢
            dsimp only at hm ⊢
            rcases List.mem_cons.mp hm with he | hmt
            · obtain ⟨-, -, hr⟩ := Event.sinkCall.inj he
              exact absurd hr (exc_string_ne_timeout ex)
            · obtain ⟨pre, hpre, hall⟩ := ih _ k p ex hmt
              refine ⟨Event.sinkCall h false "Timeout" :: pre,
                by rw [hpre, List.cons_append], ?_⟩
              intro e he
              rcases List.mem_cons.mp he with he1 | he2
              · exact ⟨h, false, he1⟩
              · exact hall e he2
          · rw [emit_attempt_pass cfg bhv now h rest st hA (by simp [hb])] at hm ⊢
            rw [hb] at hm ⊢
            dsimp only [callEvents] at hm ⊢
            simp only [if_neg Bool.false_ne_true, List.mem_singleton] at hm
            obtain ⟨-, -, hr⟩ := Event.sinkCall.inj hm
            exact absurd hr (exc_string_ne_success ex)
          · rw [emit_attempt_pass cfg bhv now h rest st hA
              (by rw [hb]; exact exc_string_ne_timeout ex2)] at hm ⊢
            rw [hb] at hm ⊢
            dsimp only [callEvents] at hm ⊢
            simp only [if_pos rfl] at hm ⊢
            rcases List.mem_cons.mp hm with he | hmt
            · exact ⟨[], by rw [← he]; simp, by simp⟩
            · simp at hmt

/-- If every bounded call of the dispatch timed out, the walk reached the end
of the chain with `handled` still `False` and never touched the exception
sink. -/
theorem all_timeout_drop (cfg : Config) (bhv : Nat → CallBehavior) (now : Nat) :
    ∀ (chain : List Nat) (st : States),
      (∀ k p r, Event.sinkCall k p r ∈ (emit cfg bhv now chain st).2.2 → r = "Timeout") →
        Event.excCall ∉ (emit cfg bhv now chain st).2.2 ∧
          (emit cfg bhv now chain st).2.1 = false := by
  intro chain
  induction chain with
  | nil => intro st _; simp [emit_nil]
  | cons h rest ih =>
      intro st hall
      cases hA : (lookupState st h).active with
      | false =>
          by_cases hrt : (lookupState st h).reset_time < now
          · rcases timeoutCall_trichotomy (bhv h) with hb | hb | ⟨ex, hb⟩
            · rw [emit_probe_timeout cfg bhv now h rest st hA hrt hb] at hall ⊢
              dsimp only at hall ⊢
              have htail := ih _ (fun k p r hm => hall k p r (List.mem_cons_of_mem _ hm))
              refine ⟨?_, htail.2⟩
              intro hmem
              rcases List.mem_cons.mp hmem with he | hm2
              · exact absurd he (by simp)
              · exact htail.1 hm2
            · have := hall h true "Success"
                (by rw [emit_probe_success cfg bhv now h rest st hA hrt hb]; simp)
              simp at this
            · have := hall h true ("Exception " ++ ex)
                (by rw [emit_probe_exc cfg bhv now h rest st ex hA hrt hb]; simp)
              exact absurd this (exc_string_ne_timeout ex)
          · rw [emit_skip cfg bhv now h rest st hA hrt] at hall ⊢
            exact ih _ hall
      | true =>
          rcases timeoutCall_trichotomy (bhv h) with hb | hb | ⟨ex, hb⟩
          · rw [emit_attempt_timeout cfg bhv now h rest st hA hb] at hall ⊢
            dsimp only at hall ⊢
            have htail := ih _ (fun k p r hm => hall k p r (List.mem_cons_of_mem _ hm))
            refine ⟨?_, htail.2⟩
            intro hmem
            rcases List.mem_cons.mp hmem with he | hm2
            · exact absurd he (by simp)
            · exact htail.1 hm2
          · have := hall h false "Success"
              (by
                rw [emit_attempt_pass cfg bhv now h rest st hA (by simp [hb]), hb]
                simp [callEvents])
            simp at this
          · have := hall h false ("Exception " ++ ex)
              (by
                rw [emit_attempt_pass cfg bhv now h rest st hA
                  (by rw [hb]; exact exc_string_ne_timeout ex), hb]
                simp [callEvents])
            exact absurd this (exc_string_ne_timeout ex)

/-- After `reset()` every sink reads as the freshly-reset entry. -/
theorem lookup_mkStates (chain : List Nat) (k : Nat) :
    lookupState (mkStates chain) k = initEntry := by
  have haux : ∀ (c : List Nat) (st : States), (∀ j, lookupState st j = initEntry) →
      ∀ j, lookupState (c.foldl (fun acc h => insertState acc h initEntry) st) j =
        initEntry := by
    intro c
    induction c with
    | nil => intro st hst j; exact hst j
    | cons h rest ih =>
        intro st hst j
        refine ih _ ?_ j
        intro j2
        by_cases hj : j2 = h
        · subst hj; exact lookup_insert_self st j2 initEntry
        · rw [lookup_insert_ne _ _ _ _ hj]; exact hst j2
  exact haux chain [] (fun _ => rfl) k

/-- The dispatch depends on the underlying calls only through the outcome
of `__timeout`: oracles indistinguishable by `timeoutCall` give identical
final state, `handled` flag and trace. -/
theorem emit_bhv_congr (cfg : Config) (now : Nat) (b1 b2 : Nat → CallBehavior)
    (hcong : ∀ h, timeoutCall (b1 h) = timeoutCall (b2 h)) :
    ∀ (chain : List Nat) (st : States),
      emit cfg b1 now chain st = emit cfg b2 now chain st := by
  intro chain
  induction chain with
  | nil => intro st; rfl
  | cons h rest ih =>
      intro st
      cases hA : (lookupState st h).active with
      | false =>
          by_cases hrt : (lookupState st h).reset_time < now
          · rcases timeoutCall_trichotomy (b1 h) with hb | hb | ⟨ex, hb⟩
            · rw [emit_probe_timeout cfg b1 now h rest st hA hrt hb,
                emit_probe_timeout cfg b2 now h rest st hA hrt ((hcong h).symm.trans hb),
                ih]
            · rw [emit_probe_success cfg b1 now h rest st hA hrt hb,
                emit_probe_success cfg b2 now h rest st hA hrt ((hcong h).symm.trans hb)]
            · rw [emit_probe_exc cfg b1 now h rest st ex hA hrt hb,
                emit_probe_exc cfg b2 now h rest st ex hA hrt ((hcong h).symm.trans hb)]
          · rw [emit_skip cfg b1 now h rest st hA hrt,
              emit_skip cfg b2 now h rest st hA hrt, ih]
      | true =>
          rcases timeoutCall_trichotomy (b1 h) with hb | hb | ⟨ex, hb⟩
          · rw [emit_attempt_timeout cfg b1 now h rest st hA hb,
              emit_attempt_timeout cfg b2 now h rest st hA ((hcong h).symm.trans hb)]
            dsimp only
            rw [ih]
          · rw [emit_attempt_pass cfg b1 now h rest st hA (by simp [hb]),
              emit_attempt_pass cfg b2 now h rest st hA
                (by rw [← hcong h]; simp [hb]), hcong h]
          · rw [emit_attempt_pass cfg b1 now h rest st hA
                (by rw [hb]; exact exc_string_ne_timeout ex),
              emit_attempt_pass cfg b2 now h rest st hA
                (by rw [← hcong h, hb]; exact exc_string_ne_timeout ex),
              hcong h]

/-- The only way an inactive sink ends a dispatch active is a successful
probe of that very sink (`__reset_handler` in the probe branch). -/
theorem trans_imp_success_probe (cfg : Config) (bhv : Nat → CallBehavior) (now : Nat) :
    ∀ (chain : List Nat) (st : States) (h : Nat),
      (lookupState st h).active = false →
      (lookupState (emit cfg bhv now chain st).1 h).active = true →
        Event.sinkCall h true "Success" ∈ (emit cfg bhv now chain st).2.2 := by
  intro chain
  induction chain with
  | nil => intro st h h0 h1; rw [emit_nil] at h1; rw [h0] at h1; simp at h1
  | cons k rest ih =>
      intro st h h0 h1
      cases hA : (lookupState st k).active with
      | false =>
          by_cases hrt : (lookupState st k).reset_time < now
          · rcases timeoutCall_trichotomy (bhv k) with hb | hb | ⟨ex, hb⟩
            · rw [emit_probe_timeout cfg bhv now k rest st hA hrt hb] at h1 ⊢
              dsimp only at h1 ⊢
              refine List.mem_cons_of_mem _ (ih _ h ?_ h1)
              by_cases hk : h = k
              · subst hk
                rw [lookup_insert_self]
                rfl
              · rw [lookup_insert_ne _ _ _ _ hk]
                exact h0
            · rw [emit_probe_success cfg bhv now k rest st hA hrt hb] at h1 ⊢
              dsimp only at h1 ⊢
              by_cases hk : h = k
              · subst hk
                exact List.mem_singleton.mpr rfl
              · rw [lookup_insert_ne _ _ _ _ hk, h0] at h1
                simp at h1
            · rw [emit_probe_exc cfg bhv now k rest st ex hA hrt hb] at h1
              dsimp only at h1
              rw [h0] at h1
              simp at h1
          · rw [emit_skip cfg bhv now k rest st hA hrt] at h1 ⊢
            exact ih _ h h0 h1
      | true =>
          have hk : h ≠ k := by
            intro he
            rw [he, hA] at h0
            simp at h0
          rcases timeoutCall_trichotomy (bhv k) with hb | hb | ⟨ex, hb⟩
          · rw [emit_attempt_timeout cfg bhv now k rest st hA hb] at h1 ⊢
            dsimp only at h1 ⊢
            refine List.mem_cons_of_mem _ (ih _ h ?_ h1)
            rw [lookup_insert_ne _ _ _ _ hk, lookup_decay_ne _ _ _ _ hk]
            exact h0
          · rw [emit_attempt_pass cfg bhv now k rest st hA (by simp [hb])] at h1
            dsimp only at h1
            rw [lookup_decay_active, h0] at h1
            simp at h1
          · rw [emit_attempt_pass cfg bhv now k rest st hA
              (by rw [hb]; exact exc_string_ne_timeout ex)] at h1
            dsimp only at h1
            rw [lookup_decay_active, h0] at h1
            simp at h1

/-- After a dispatch whose trace holds a successful probe of `h`, the
counter of `h` reads 0 (`__reset_handler` zeroed it and the walk broke). -/
theorem probe_success_attempts (cfg : Config) (bhv : Nat → CallBehavior) (now : Nat) :
    ∀ (chain : List Nat) (st : States) (h : Nat),
      Event.sinkCall h true "Success" ∈ (emit cfg bhv now chain st).2.2 →
        (lookupState (emit cfg bhv now chain st).1 h).attempts = 0 := by
  intro chain
  induction chain with
  | nil => intro st h hm; simp [emit_nil] at hm
  | cons k rest ih =>
      intro st h hm
      cases hA : (lookupState st k).active with
      | false =>
          by_cases hrt : (lookupState st k).reset_time < now
          · rcases timeoutCall_trichotomy (bhv k) with hb | hb | ⟨ex, hb⟩
            · rw [emit_probe_timeout cfg bhv now k rest st hA hrt hb] at hm ⊢
              dsimp only at hm ⊢
              rcases List.mem_cons.mp hm with he | hm2
              · obtain ⟨-, -, hr⟩ := Event.sinkCall.inj he
                simp at hr
              · exact ih _ h hm2
            · rw [emit_probe_success cfg bhv now k rest st hA hrt hb] at hm ⊢
              dsimp only at hm ⊢
              obtain ⟨hk, -, -⟩ := Event.sinkCall.inj (List.mem_singleton.mp hm)
              subst hk
              rw [lookup_insert_self]
              rfl
            · rw [emit_probe_exc cfg bhv now k rest st ex hA hrt hb] at hm
              dsimp only at hm
              rcases List.mem_cons.mp hm with he | hm2
              · obtain ⟨-, -, hr⟩ := Event.sinkCall.inj he
                exact absurd hr.symm (exc_string_ne_success ex)
              · simp at hm2
          · rw [emit_skip cfg bhv now k rest st hA hrt] at hm ⊢
            exact ih _ h hm
      | true =>
          rcases timeoutCall_trichotomy (bhv k) with hb | hb | ⟨ex, hb⟩
          · rw [emit_attempt_timeout cfg bhv now k rest st hA hb] at hm ⊢
            dsimp only at hm ⊢
            rcases List.mem_cons.mp hm with he | hm2
            · obtain ⟨-, -, hr⟩ := Event.sinkCall.inj he
              simp at hr
            · exact ih _ h hm2
          · rw [emit_attempt_pass cfg bhv now k rest st hA (by simp [hb])] at hm
            rw [hb] at hm
            dsimp only [callEvents] at hm
            simp only [if_neg Bool.false_ne_true, List.mem_singleton] at hm
            obtain ⟨-, hp, -⟩ := Event.sinkCall.inj hm
            simp at hp
          · rw [emit_attempt_pass cfg bhv now k rest st hA
              (by rw [hb]; exact exc_string_ne_timeout ex)] at hm
            rw [hb] at hm
            dsimp only [callEvents] at hm
            simp only [if_pos rfl] at hm
            rcases List.mem_cons.mp hm with he | hm2
            · obtain ⟨-, hp, -⟩ := Event.sinkCall.inj he
              simp at hp
            · simp at hm2

/-- Over a duplicate-free chain, a normal attempt that did not time out
leaves that sink's counter exactly as lazy decay left it: the pre-dispatch
value, or 0 when the decay guard (`attempts > 0` and `reset_time < now`)
fired; the Success/Failed outcome itself resets nothing. -/
theorem pass_attempts (cfg : Config) (bhv : Nat → CallBehavior) (now : Nat) :
    ∀ (chain : List Nat) (st : States) (h : Nat) (res : String),
      chain.Nodup →
      Event.sinkCall h false res ∈ (emit cfg bhv now chain st).2.2 →
      res ≠ "Timeout" →
        (lookupState (emit cfg bhv now chain st).1 h).attempts =
          (if 0 < (lookupState st h).attempts ∧ (lookupState st h).reset_time < now
           then 0 else (lookupState st h).attempts) := by
  intro chain
  induction chain with
  | nil => intro st h res _ hm _; simp [emit_nil] at hm
  | cons k rest ih =>
      intro st h res hnd hm hres
      have hknr : k ∉ rest := (List.nodup_cons.mp hnd).1
      have hrnd : rest.Nodup := (List.nodup_cons.mp hnd).2
      cases hA : (lookupState st k).active with
      | false =>
          by_cases hrt : (lookupState st k).reset_time < now
          · rcases timeoutCall_trichotomy (bhv k) with hb | hb | ⟨ex, hb⟩
            · rw [emit_probe_timeout cfg bhv now k rest st hA hrt hb] at hm ⊢
              dsimp only at hm ⊢
              rcases List.mem_cons.mp hm with he | hm2
              · obtain ⟨-, hp, -⟩ := Event.sinkCall.inj he
                simp at hp
              · have hhk : h ≠ k := by
                  intro he
                  exact hknr (he ▸ sinkCall_mem_chain cfg bhv now rest _ h false res hm2)
                rw [ih _ h res hrnd hm2 hres, lookup_insert_ne _ _ _ _ hhk]
            · rw [emit_probe_success cfg bhv now k rest st hA hrt hb] at hm
              dsimp only at hm
              obtain ⟨-, hp, -⟩ := Event.sinkCall.inj (List.mem_singleton.mp hm)
              simp at hp
            · rw [emit_probe_exc cfg bhv now k rest st ex hA hrt hb] at hm
              dsimp only at hm
              rcases List.mem_cons.mp hm with he | hm2
              · obtain ⟨-, hp, -⟩ := Event.sinkCall.inj he
                simp at hp
              · simp at hm2
          · rw [emit_skip cfg bhv now k rest st hA hrt] at hm ⊢
            exact ih _ h res hrnd hm hres
      | true =>
          rcases timeoutCall_trichotomy (bhv k) with hb | hb | ⟨ex, hb⟩
          · rw [emit_attempt_timeout cfg bhv now k rest st hA hb] at hm ⊢
            dsimp only at hm ⊢
            rcases List.mem_cons.mp hm with he | hm2
            · obtain ⟨-, -, hr⟩ := Event.sinkCall.inj he
              exact absurd hr hres
            · have hhk : h ≠ k := by
                intro he
                exact hknr (he ▸ sinkCall_mem_chain cfg bhv now rest _ h false res hm2)
              rw [ih _ h res hrnd hm2 hres, lookup_insert_ne _ _ _ _ hhk,
                lookup_decay_ne _ _ _ _ hhk]
          · rw [emit_attempt_pass cfg bhv now k rest st hA (by simp [hb])] at hm ⊢
            rw [hb] at hm
            dsimp only [callEvents] at hm
            simp only [if_neg Bool.false_ne_true, List.mem_singleton] at hm
            obtain ⟨hk, -, -⟩ := Event.sinkCall.inj hm
            subst hk
            rw [lookup_decay_self]
            split <;> rfl
          · rw [emit_attempt_pass cfg bhv now k rest st hA
              (by rw [hb]; exact exc_string_ne_timeout ex)] at hm ⊢
            rw [hb] at hm
            dsimp only [callEvents] at hm
            simp only [if_pos rfl] at hm
            rcases List.mem_cons.mp hm with he | hm2
            · obtain ⟨hk, -, -⟩ := Event.sinkCall.inj he
              subst hk
              rw [lookup_decay_self]
              split <;> rfl
            · simp at hm2

theorem mem_dictKeys_insert (st : States) (h : Nat) (s : HandlerState) :
    h ∈ dictKeys (insertState st h s) := by
  induction st with
  | nil => simp [insertState, dictKeys]
  | cons kv rest ih =>
      obtain ⟨k, v⟩ := kv
      by_cases hk : k = h
      · simp [insertState, hk, dictKeys]
      · simp only [insertState, if_neg hk, dictKeys, List.map_cons]
        exact List.mem_cons_of_mem _ ih

theorem mem_dictKeys_insert_of_mem (st : States) (h k : Nat) (s : HandlerState)
    (hm : k ∈ dictKeys st) : k ∈ dictKeys (insertState st h s) := by
  induction st with
  | nil => simp [dictKeys] at hm
  | cons kv rest ih =>
      obtain ⟨k2, v⟩ := kv
      by_cases hk : k2 = h
      · simpa [insertState, hk, dictKeys] using hm
      · simp only [dictKeys, List.map_cons, List.mem_cons] at hm
        rcases hm with he | hm2
        · simp [insertState, hk, dictKeys, he]
        · simp only [insertState, if_neg hk, dictKeys, List.map_cons]
          exact List.mem_cons_of_mem _ (ih hm2)

theorem insert_length_le (st : States) (h : Nat) (s : HandlerState) :
    (insertState st h s).length ≤ st.length + 1 := by
  induction st with
  | nil => simp [insertState]
  | cons kv rest ih =>
      obtain ⟨k, v⟩ := kv
      by_cases hk : k = h
      · simp [insertState, hk]
      · simp only [insertState, if_neg hk, List.length_cons]
        omega

theorem insert_length_of_mem (st : States) (h : Nat) (s : HandlerState)
    (hm : h ∈ dictKeys st) : (insertState st h s).length = st.length := by
  induction st with
  | nil => simp [dictKeys] at hm
  | cons kv rest ih =>
      obtain ⟨k, v⟩ := kv
      by_cases hk : k = h
      · simp [insertState, hk]
      · simp only [dictKeys, List.map_cons, List.mem_cons] at hm
        rcases hm with he | hm2
        · exact absurd he.symm hk
        · simp only [insertState, if_neg hk, List.length_cons, ih hm2]

theorem foldl_insert_length_le :
    ∀ (c : List Nat) (st : States),
      (c.foldl (fun acc h => insertState acc h initEntry) st).length ≤
        st.length + c.length := by
  intro c
  induction c with
  | nil => intro st; simp
  | cons h c ih =>
      intro st
      calc ((h :: c).foldl (fun acc x => insertState acc x initEntry) st).length
          = (c.foldl (fun acc x => insertState acc x initEntry)
              (insertState st h initEntry)).length := rfl
        _ ≤ (insertState st h initEntry).length + c.length := ih _
        _ ≤ st.length + 1 + c.length := by
            have := insert_length_le st h initEntry
            omega
        _ = st.length + (h :: c).length := by simp [List.length_cons]; omega

theorem foldl_insert_length_lt_of_mem :
    ∀ (c : List Nat) (st : States) (k : Nat), k ∈ c → k ∈ dictKeys st →
      (c.foldl (fun acc h => insertState acc h initEntry) st).length <
        st.length + c.length := by
  intro c
  induction c with
  | nil => intro st k hk _; simp at hk
  | cons c0 c ih =>
      intro st k hk hkeys
      by_cases hc0 : k = c0
      · subst hc0
        have h1 : (insertState st k initEntry).length = st.length :=
          insert_length_of_mem st k initEntry hkeys
        have h2 := foldl_insert_length_le c (insertState st k initEntry)
        simp only [List.foldl_cons, List.length_cons]
        omega
      · have hk2 : k ∈ c := by
          rcases List.mem_cons.mp hk with he | hm
          · exact absurd he hc0
          · exact hm
        have h1 := ih (insertState st c0 initEntry) k hk2
          (mem_dictKeys_insert_of_mem st c0 k initEntry hkeys)
        have h2 := insert_length_le st c0 initEntry
        simp only [List.foldl_cons, List.length_cons]
        omega

theorem foldl_insert_length_lt_of_dup :
    ∀ (c : List Nat) (st : States), ¬ c.Nodup →
      (c.foldl (fun acc h => insertState acc h initEntry) st).length <
        st.length + c.length := by
  intro c
  induction c with
  | nil => intro st hd; exact absurd List.nodup_nil hd
  | cons c0 c ih =>
      intro st hd
      by_cases hm : c0 ∈ c
      · have h1 := foldl_insert_length_lt_of_mem c (insertState st c0 initEntry) c0 hm
          (mem_dictKeys_insert st c0 initEntry)
        have h2 := insert_length_le st c0 initEntry
        simp only [List.foldl_cons, List.length_cons]
        omega
      · have hcd : ¬ c.Nodup := by
          intro hnd
          exact hd (List.nodup_cons.mpr ⟨hm, hnd⟩)
        have h1 := ih (insertState st c0 initEntry) hcd
        have h2 := insert_length_le st c0 initEntry
        simp only [List.foldl_cons, List.length_cons]
        omega

/-- A chain listing some sink twice produces strictly fewer dict entries
than chain positions. -/
theorem mkStates_length_lt (chain : List Nat) (hd : ¬ chain.Nodup) :
    (mkStates chain).length < chain.length := by
  have := foldl_insert_length_lt_of_dup chain [] hd
  simpa [mkStates] using this

/-- Any name missing from the instance dict, other than the literal
`"__timeouts"`, sends `__getattr__` into unbounded recursion through
`self.main_handler`. -/
theorem getattr_missing_recursion :
    ∀ (fuel : Nat) (name : String), name ∉ instanceAttrs → name ≠ "__timeouts" →
      getattrModel fuel name = AttrResult.recursionError := by
  intro fuel
  induction fuel with
  | zero => intro name _ _; rfl
  | succ fuel ih =>
      intro name h1 h2
      have hmain := ih "main_handler" (by decide) (by decide)
      simp [getattrModel, h1, h2, hmain]

/-- No attribute access ever completes through delegation to the main
handler: resolving `self.main_handler` itself never terminates. -/
theorem getattr_never_delegated (fuel : Nat) (name dn : String) :
    getattrModel fuel name ≠ AttrResult.delegated dn := by
  cases fuel with
  | zero => simp [getattrModel]
  | succ fuel =>
      by_cases h1 : name ∈ instanceAttrs
      · simp [getattrModel, h1]
      · by_cases h2 : name = "__timeouts"
        · subst h2
          simp [getattrModel, show ("__timeouts" : String) ∉ instanceAttrs from by decide]
        · have hmain := getattr_missing_recursion fuel "main_handler" (by decide) (by decide)
          simp [getattrModel, h1, h2, hmain]

/-- An active sink whose call raises: the walk makes that one call, the
exception sink fires, and the dispatch breaks with only lazy decay applied. -/
theorem emit_primary_exc (cfg : Config) (bhv : Nat → CallBehavior) (now m : Nat)
    (fbs : List Nat) (st : States) (ex : String)
    (hb : bhv m = ⟨false, some ex⟩) (hact : (lookupState st m).active = true) :
    emit cfg bhv now (m :: fbs) st =
      (decayState st m now, true,
        [Event.sinkCall m false ("Exception " ++ ex), Event.excCall]) := by
  have ht : timeoutCall (bhv m) = ("Exception " ++ ex, true) := by
    rw [hb]; rfl
  rw [emit_attempt_pass cfg bhv now m fbs st hact
    (by rw [ht]; exact exc_string_ne_timeout ex), ht]
  rfl

/-- Iterated dispatch with an always-raising head sink: every record makes
exactly one call (on the head) plus one exception-sink delivery. -/
theorem dispatchSeq_primary_exc (cfg : Config) (bhv : Nat → CallBehavior)
    (m : Nat) (fbs : List Nat) (ex : String) (hb : bhv m = ⟨false, some ex⟩) :
    ∀ (ts : List Nat) (st : States), (lookupState st m).active = true →
      (dispatchSeq cfg bhv (m :: fbs) ts st).2 =
        ts.map (fun _ => [Event.sinkCall m false ("Exception " ++ ex), Event.excCall]) := by
  intro ts
  induction ts with
  | nil => intro st _; rfl
  | cons t ts ih =>
      intro st hact
      simp only [dispatchSeq]
      rw [emit_primary_exc cfg bhv t m fbs st ex hb hact]
      dsimp only
      rw [ih _ (by rw [lookup_decay_active]; exact hact)]
      simp

/-- C1: for every record dispatched through a chain in which every sink is
either skipped (cooling, not yet due) or returns Timeout — i.e. every
bounded call of the dispatch returned `"Timeout"` — the dispatch terminates
with the record delivered to no sink (`handled = False`, no `"Success"`
call) and without the exception sink being invoked; the trace holds no
other output of any kind. -/
theorem C1_exhausted_chain_silent_drop (cfg : Config) (bhv : Nat → CallBehavior)
    (now : Nat) (chain : List Nat) (st : States)
    (hall : ∀ k p r, Event.sinkCall k p r ∈ (emit cfg bhv now chain st).2.2 →
      r = "Timeout") :
    Event.excCall ∉ (emit cfg bhv now chain st).2.2 ∧
      (emit cfg bhv now chain st).2.1 = false ∧
      ∀ k p, Event.sinkCall k p "Success" ∉ (emit cfg bhv now chain st).2.2 := by
  obtain ⟨h1, h2⟩ := all_timeout_drop cfg bhv now chain st hall
  refine ⟨h1, h2, ?_⟩
  intro k p hm
  have := hall k p "Success" hm
  simp at this

/-- Witness for C1: two-sink chain, both sinks time out at every call. -/
theorem C1_witness :
    Event.excCall ∉ (emit ⟨1, 3, 10⟩ bhvTimeoutAll 5 [0, 1] (mkStates [0, 1])).2.2 ∧
      (emit ⟨1, 3, 10⟩ bhvTimeoutAll 5 [0, 1] (mkStates [0, 1])).2.1 = false ∧
      ∀ k p, Event.sinkCall k p "Success" ∉
        (emit ⟨1, 3, 10⟩ bhvTimeoutAll 5 [0, 1] (mkStates [0, 1])).2.2 :=
  C1_exhausted_chain_silent_drop ⟨1, 3, 10⟩ bhvTimeoutAll 5 [0, 1] (mkStates [0, 1])
    (by
      intro k p r hm
      have he : (emit ⟨1, 3, 10⟩ bhvTimeoutAll 5 [0, 1] (mkStates [0, 1])).2.2 =
          [Event.sinkCall 0 false "Timeout", Event.sinkCall 1 false "Timeout"] := rfl
      rw [he] at hm
      rcases List.mem_cons.mp hm with h1 | hm2
      · exact (Event.sinkCall.inj h1).2.2
      · exact (Event.sinkCall.inj (List.mem_singleton.mp hm2)).2.2)

/-- C2: a bounded call that raises before the deadline (`Failed` outcome,
normal attempt or probe) puts exactly one exception-sink delivery in the
trace, immediately after the failing call, with nothing after it (no later
sink is invoked) and only timed-out calls before it; in particular a chain
whose primary always raises sends every record to the exception sink
exactly once and never invokes any fallback. -/
theorem C2_failed_outcome_exception_sink :
    (∀ (cfg : Config) (bhv : Nat → CallBehavior) (now : Nat) (chain : List Nat)
      (st : States) (k : Nat) (p : Bool) (ex : String),
      Event.sinkCall k p ("Exception " ++ ex) ∈ (emit cfg bhv now chain st).2.2 →
        List.count Event.excCall (emit cfg bhv now chain st).2.2 = 1 ∧
        ∃ pre, (emit cfg bhv now chain st).2.2 =
            pre ++ [Event.sinkCall k p ("Exception " ++ ex), Event.excCall] ∧
          ∀ e ∈ pre, ∃ k2 p2, e = Event.sinkCall k2 p2 "Timeout") ∧
    (∀ (cfg : Config) (bhv : Nat → CallBehavior) (m : Nat) (fbs : List Nat)
      (ex : String) (ts : List Nat), bhv m = ⟨false, some ex⟩ →
      (dispatchSeq cfg bhv (m :: fbs) ts (mkStates (m :: fbs))).2 =
        ts.map (fun _ => [Event.sinkCall m false ("Exception " ++ ex), Event.excCall])) := by
  constructor
  · intro cfg bhv now chain st k p ex hm
    obtain ⟨pre, hpre, hall⟩ := exc_mem_decomposition cfg bhv now chain st k p ex hm
    refine ⟨?_, pre, hpre, hall⟩
    rw [hpre, List.count_append]
    have hpre0 : List.count Event.excCall pre = 0 := by
      rw [List.count_eq_zero]
      intro hmem
      obtain ⟨k2, p2, he⟩ := hall _ hmem
      exact Event.noConfusion he
    rw [hpre0]
    simp [List.count_cons]
  · intro cfg bhv m fbs ex ts hb
    exact dispatchSeq_primary_exc cfg bhv m fbs ex hb ts (mkStates (m :: fbs))
      (by rw [lookup_mkStates]; rfl)

/-- Witness for C2: primary raises `"boom"`; single dispatch decomposition
and two-record sequence against chain `[0, 1]`. -/
theorem C2_witness :
    (List.count Event.excCall
        (emit ⟨1, 3, 10⟩ bhvMainExc 0 [0, 1] (mkStates [0, 1])).2.2 = 1 ∧
      ∃ pre, (emit ⟨1, 3, 10⟩ bhvMainExc 0 [0, 1] (mkStates [0, 1])).2.2 =
          pre ++ [Event.sinkCall 0 false ("Exception " ++ "boom"), Event.excCall] ∧
        ∀ e ∈ pre, ∃ k2 p2, e = Event.sinkCall k2 p2 "Timeout") ∧
    (dispatchSeq ⟨1, 3, 10⟩ bhvMainExc [0, 1] [0, 0] (mkStates [0, 1])).2 =
      [0, 0].map (fun _ =>
        [Event.sinkCall 0 false ("Exception " ++ "boom"), Event.excCall]) :=
  ⟨C2_failed_outcome_exception_sink.1 ⟨1, 3, 10⟩ bhvMainExc 0 [0, 1] (mkStates [0, 1])
      0 false "boom" (by decide),
   C2_failed_outcome_exception_sink.2 ⟨1, 3, 10⟩ bhvMainExc 0 [1] "boom" [0, 0] rfl⟩

/-- C4 counterexample: sink 0 accumulates one timeout, then a dispatch whose
bounded call Succeeds (a non-timeout outcome) leaves `attempts = 1`, not 0 —
the claim that `consecutiveTimeouts` resets on any non-timeout outcome for
that sink fails on the code. -/
theorem C4_counterexample :
    Event.sinkCall 0 false "Success" ∈
        (emit ⟨1, 3, 10⟩ bhvOkAll 0 [0]
          (emit ⟨1, 3, 10⟩ bhvTimeoutAll 0 [0] (mkStates [0])).1).2.2 ∧
      (lookupState (emit ⟨1, 3, 10⟩ bhvOkAll 0 [0]
          (emit ⟨1, 3, 10⟩ bhvTimeoutAll 0 [0] (mkStates [0])).1).1 0).attempts = 1 ∧
      ¬ (lookupState (emit ⟨1, 3, 10⟩ bhvOkAll 0 [0]
          (emit ⟨1, 3, 10⟩ bhvTimeoutAll 0 [0] (mkStates [0])).1).1 0).attempts = 0 := by
  decide

/-- C4 (amended): over a duplicate-free chain, `consecutiveTimeouts` is 0
after a dispatch whose trace holds a successful probe of the sink; a normal
attempt ending in a non-timeout outcome (Success or Failed) leaves the
counter at its pre-dispatch value except that lazy decay (pre-dispatch
`attempts > 0` and `reset_time < now`) zeroes it — the non-timeout outcome
itself resets nothing. -/
theorem C4_amended_counter_reset (cfg : Config) (bhv : Nat → CallBehavior)
    (now : Nat) (chain : List Nat) (st : States) (hnd : chain.Nodup) :
    (∀ h, Event.sinkCall h true "Success" ∈ (emit cfg bhv now chain st).2.2 →
      (lookupState (emit cfg bhv now chain st).1 h).attempts = 0) ∧
    (∀ h res, Event.sinkCall h false res ∈ (emit cfg bhv now chain st).2.2 →
      res ≠ "Timeout" →
      (lookupState (emit cfg bhv now chain st).1 h).attempts =
        (if 0 < (lookupState st h).attempts ∧ (lookupState st h).reset_time < now
         then 0 else (lookupState st h).attempts)) :=
  ⟨fun h hm => probe_success_attempts cfg bhv now chain st h hm,
   fun h res hm hr => pass_attempts cfg bhv now chain st h res hnd hm hr⟩

/-- Witness for C4 (amended): sink 0 with one accumulated timeout succeeds
on a normal attempt before its reset window; the counter stays 1. -/
theorem C4_witness :
    (lookupState (emit ⟨1, 3, 10⟩ bhvOkAll 0 [0] [(0, ⟨true, 1, 10⟩)]).1 0).attempts =
      (if 0 < (lookupState [(0, (⟨true, 1, 10⟩ : HandlerState))] 0).attempts ∧
          (lookupState [(0, (⟨true, 1, 10⟩ : HandlerState))] 0).reset_time < 0
       then 0 else (lookupState [(0, (⟨true, 1, 10⟩ : HandlerState))] 0).attempts) :=
  (C4_amended_counter_reset ⟨1, 3, 10⟩ bhvOkAll 0 [0] [(0, ⟨true, 1, 10⟩)]
    (by decide)).2 0 "Success" (by decide) (by decide)

/-- C5: the bounded executor's outcome for a call still running at the
deadline is `Timeout` with no exception-sink involvement, whatever the
abandoned call eventually does; two oracles that agree on which calls
overrun the deadline (and on the results of the completed ones) give the
dispatcher identical circuit states, `handled` flag and trace, so the
abandoned call's eventual result affects nothing. -/
theorem C5_abandoned_call_result_discarded :
    (∀ r : Option String, timeoutCall ⟨true, r⟩ = ("Timeout", false)) ∧
    (∀ (cfg : Config) (b1 b2 : Nat → CallBehavior) (now : Nat) (chain : List Nat)
      (st : States),
      (∀ h, (b1 h).timedOut = (b2 h).timedOut) →
      (∀ h, (b1 h).timedOut = false → (b1 h).result = (b2 h).result) →
      emit cfg b1 now chain st = emit cfg b2 now chain st) := by
  constructor
  · intro r; rfl
  · intro cfg b1 b2 now chain st ht hr
    apply emit_bhv_congr
    intro h
    cases hb : (b1 h).timedOut with
    | false =>
        have hteq := ht h
        rw [hb] at hteq
        have hres := hr h hb
        cases hc : (b1 h).result with
        | none =>
            rw [timeoutCall_of_ok (b1 h) hb hc,
              timeoutCall_of_ok (b2 h) hteq.symm (hres.symm.trans hc)]
        | some ex =>
            rw [timeoutCall_of_exc (b1 h) ex hb hc,
              timeoutCall_of_exc (b2 h) ex hteq.symm (hres.symm.trans hc)]
    | true =>
        rw [timeoutCall_of_timedOut _ hb,
          timeoutCall_of_timedOut _ ((ht h).symm.trans hb)]

/-- Witness for C5: all-timeout oracle versus all-timeout oracle whose
abandoned calls later raise; the dispatches coincide. -/
theorem C5_witness :
    timeoutCall ⟨true, some "late"⟩ = ("Timeout", false) ∧
      emit ⟨1, 3, 10⟩ bhvTimeoutAll 0 [0, 1] (mkStates [0, 1]) =
        emit ⟨1, 3, 10⟩ bhvTimeoutLate 0 [0, 1] (mkStates [0, 1]) :=
  ⟨C5_abandoned_call_result_discarded.1 (some "late"),
   C5_abandoned_call_result_discarded.2 ⟨1, 3, 10⟩ bhvTimeoutAll bhvTimeoutLate 0
     [0, 1] (mkStates [0, 1]) (fun _ => rfl)
     (fun h hh => by simp [bhvTimeoutAll] at hh)⟩

/-- C6: a cooling sink whose cooldown is due and whose single probe times
out stays inactive with `reset_time = now + retry_timeout`, the walk
proceeds to the remaining sinks for the same record (the trace continues
with their trace), and if a later sink's call succeeds the record is still
delivered (`handled = True`). -/
theorem C6_probe_timeout_extends_cooldown (cfg : Config) (bhv : Nat → CallBehavior)
    (now h : Nat) (rest : List Nat) (st : States)
    (hact : (lookupState st h).active = false)
    (hdue : (lookupState st h).reset_time < now)
    (hto : (bhv h).timedOut = true)
    (hnr : h ∉ rest) :
    (emit cfg bhv now (h :: rest) st).2.2 =
        Event.sinkCall h true "Timeout" ::
          (emit cfg bhv now rest
            (insertState st h (timeoutHandlerUpd cfg now (lookupState st h)))).2.2 ∧
      (lookupState (emit cfg bhv now (h :: rest) st).1 h).active = false ∧
      (lookupState (emit cfg bhv now (h :: rest) st).1 h).reset_time =
        now + cfg.retry_timeout ∧
      ∀ k p, Event.sinkCall k p "Success" ∈
          (emit cfg bhv now rest
            (insertState st h (timeoutHandlerUpd cfg now (lookupState st h)))).2.2 →
        (emit cfg bhv now (h :: rest) st).2.1 = true := by
  rw [emit_probe_timeout cfg bhv now h rest st hact hdue (timeoutCall_of_timedOut _ hto)]
  dsimp only
  have hstate : lookupState
      (emit cfg bhv now rest
        (insertState st h (timeoutHandlerUpd cfg now (lookupState st h)))).1 h =
      timeoutHandlerUpd cfg now (lookupState st h) := by
    rw [emit_lookup_not_mem cfg bhv now rest _ h hnr, lookup_insert_self]
  refine ⟨rfl, ?_, ?_, ?_⟩
  · rw [hstate]; rfl
  · rw [hstate]; rfl
  · intro k p hm
    exact handled_of_success_mem cfg bhv now rest _ k p hm

/-- Witness for C6: sink 0 cooling and due at `now = 6`, probe times out,
fallback sink 1 succeeds. -/
theorem C6_witness :
    (emit ⟨1, 3, 5⟩ bhvMainTimeout 6 [0, 1] [(0, ⟨false, 3, 5⟩), (1, initEntry)]).2.2 =
        Event.sinkCall 0 true "Timeout" ::
          (emit ⟨1, 3, 5⟩ bhvMainTimeout 6 [1]
            (insertState [(0, ⟨false, 3, 5⟩), (1, initEntry)] 0
              (timeoutHandlerUpd ⟨1, 3, 5⟩ 6
                (lookupState [(0, ⟨false, 3, 5⟩), (1, initEntry)] 0)))).2.2 ∧
      (lookupState
        (emit ⟨1, 3, 5⟩ bhvMainTimeout 6 [0, 1]
          [(0, ⟨false, 3, 5⟩), (1, initEntry)]).1 0).active = false ∧
      (lookupState
        (emit ⟨1, 3, 5⟩ bhvMainTimeout 6 [0, 1]
          [(0, ⟨false, 3, 5⟩), (1, initEntry)]).1 0).reset_time = 6 + 5 ∧
      ∀ k p, Event.sinkCall k p "Success" ∈
          (emit ⟨1, 3, 5⟩ bhvMainTimeout 6 [1]
            (insertState [(0, ⟨false, 3, 5⟩), (1, initEntry)] 0
              (timeoutHandlerUpd ⟨1, 3, 5⟩ 6
                (lookupState [(0, ⟨false, 3, 5⟩), (1, initEntry)] 0)))).2.2 →
        (emit ⟨1, 3, 5⟩ bhvMainTimeout 6 [0, 1]
          [(0, ⟨false, 3, 5⟩), (1, initEntry)]).2.1 = true :=
  C6_probe_timeout_extends_cooldown ⟨1, 3, 5⟩ bhvMainTimeout 6 0 [1]
    [(0, ⟨false, 3, 5⟩), (1, initEntry)] (by decide) (by decide) (by decide) (by decide)

/-- C7 counterexample: after three back-to-back timeouts at `t = 0` with
`retry_timeout = 5`, sink 0 is cooling with `cooldownUntil = 5`; a dispatch
at exactly `now = 5` (so `now ≥ cooldownUntil`) makes no call at all — the
boundary case is skipped, not probed, because the source tests
`reset_time < time.time()` strictly. -/
theorem C7_counterexample :
    (lookupState (dispatchSeq ⟨1, 3, 5⟩ bhvTimeoutAll [0] [0, 0, 0] (mkStates [0])).1
        0).active = false ∧
      (lookupState (dispatchSeq ⟨1, 3, 5⟩ bhvTimeoutAll [0] [0, 0, 0] (mkStates [0])).1
        0).reset_time = 5 ∧
      (emit ⟨1, 3, 5⟩ bhvTimeoutAll 5 [0]
        (dispatchSeq ⟨1, 3, 5⟩ bhvTimeoutAll [0] [0, 0, 0] (mkStates [0])).1).2.2 = [] := by
  decide

/-- C7 (amended): a cooling sink is probed exactly once per dispatch when
`cooldownUntil < now` strictly (the probe is the dispatch's first call and
no other call touches that sink); when `now ≤ cooldownUntil` — including
`now = cooldownUntil` — the sink is skipped with no call made. -/
theorem C7_amended_probe_strictly_after (cfg : Config) (bhv : Nat → CallBehavior)
    (now h : Nat) (rest : List Nat) (st : States)
    (hact : (lookupState st h).active = false) (hnr : h ∉ rest) :
    ((lookupState st h).reset_time < now →
      ∃ res tail, (emit cfg bhv now (h :: rest) st).2.2 =
          Event.sinkCall h true res :: tail ∧
        ∀ p r, Event.sinkCall h p r ∉ tail) ∧
    (now ≤ (lookupState st h).reset_time →
      ∀ p r, Event.sinkCall h p r ∉ (emit cfg bhv now (h :: rest) st).2.2) := by
  constructor
  · intro hdue
    rcases timeoutCall_trichotomy (bhv h) with hb | hb | ⟨ex, hb⟩
    · rw [emit_probe_timeout cfg bhv now h rest st hact hdue hb]
      dsimp only
      refine ⟨"Timeout", _, rfl, ?_⟩
      intro p r hm
      exact hnr (sinkCall_mem_chain cfg bhv now rest _ h p r hm)
    · rw [emit_probe_success cfg bhv now h rest st hact hdue hb]
      exact ⟨"Success", [], rfl, by simp⟩
    · rw [emit_probe_exc cfg bhv now h rest st ex hact hdue hb]
      refine ⟨"Exception " ++ ex, [Event.excCall], rfl, ?_⟩
      intro p r hm
      simp at hm
  · intro hnd p r hm
    rw [emit_skip cfg bhv now h rest st hact (by omega)] at hm
    exact hnr (sinkCall_mem_chain cfg bhv now rest st h p r hm)

/-- Witness for C7 (amended): sink 0 cooling with `cooldownUntil = 5`,
probed at `now = 6`, skipped at `now = 5`. -/
theorem C7_witness :
    (∃ res tail, (emit ⟨1, 3, 5⟩ bhvTimeoutAll 6 [0, 1]
          [(0, ⟨false, 3, 5⟩), (1, initEntry)]).2.2 =
        Event.sinkCall 0 true res :: tail ∧
      ∀ p r, Event.sinkCall 0 p r ∉ tail) ∧
      ∀ p r, Event.sinkCall 0 p r ∉
        (emit ⟨1, 3, 5⟩ bhvTimeoutAll 5 [0, 1]
          [(0, ⟨false, 3, 5⟩), (1, initEntry)]).2.2 :=
  ⟨(C7_amended_probe_strictly_after ⟨1, 3, 5⟩ bhvTimeoutAll 6 0 [1]
      [(0, ⟨false, 3, 5⟩), (1, initEntry)] (by decide) (by decide)).1 (by decide),
   (C7_amended_probe_strictly_after ⟨1, 3, 5⟩ bhvTimeoutAll 5 0 [1]
      [(0, ⟨false, 3, 5⟩), (1, initEntry)] (by decide) (by decide)).2 (by decide)⟩

/-- C8: during one dispatch at most one sink goes cooling→active, and a
sink that does is the one whose probe succeeded — every `"Success"` call in
the trace (probe or not) is on that sink, so it is the first (and only)
successfully probed sink of the walk. -/
theorem C8_single_reactivation_per_dispatch (cfg : Config) (bhv : Nat → CallBehavior)
    (now : Nat) (chain : List Nat) (st : States) :
    (∀ h h2, transitioned st (emit cfg bhv now chain st).1 h →
      transitioned st (emit cfg bhv now chain st).1 h2 → h = h2) ∧
    (∀ h, transitioned st (emit cfg bhv now chain st).1 h →
      Event.sinkCall h true "Success" ∈ (emit cfg bhv now chain st).2.2 ∧
        ∀ k p, Event.sinkCall k p "Success" ∈ (emit cfg bhv now chain st).2.2 →
          k = h) := by
  constructor
  · intro h h2 hta htb
    have m1 := trans_imp_success_probe cfg bhv now chain st h hta.1 hta.2
    have m2 := trans_imp_success_probe cfg bhv now chain st h2 htb.1 htb.2
    exact (success_mem_unique cfg bhv now chain st h true h2 true m1 m2).1
  · intro h hta
    have m1 := trans_imp_success_probe cfg bhv now chain st h hta.1 hta.2
    exact ⟨m1, fun k p hm =>
      (success_mem_unique cfg bhv now chain st k p h true hm m1).1⟩

/-- Witness for C8: cooling sink 0 probed successfully at `now = 10`. -/
theorem C8_witness :
    Event.sinkCall 0 true "Success" ∈
        (emit ⟨1, 3, 5⟩ bhvOkAll 10 [0, 1]
          [(0, ⟨false, 3, 5⟩), (1, initEntry)]).2.2 ∧
      ∀ k p, Event.sinkCall k p "Success" ∈
          (emit ⟨1, 3, 5⟩ bhvOkAll 10 [0, 1]
            [(0, ⟨false, 3, 5⟩), (1, initEntry)]).2.2 → k = 0 :=
  (C8_single_reactivation_per_dispatch ⟨1, 3, 5⟩ bhvOkAll 10 [0, 1]
    [(0, ⟨false, 3, 5⟩), (1, initEntry)]).2 0 ⟨rfl, rfl⟩

/-- C9 counterexample: `__getattr__`'s special case for the literal name
`"__timeouts"` does match — `getattr(fh, "__timeouts")` (no mangling at a
non-class access site) returns the mangled dict entry without recursing —
so "the special case can never match" is false, and that access neither
recurses unboundedly nor delegates. -/
theorem C9_counterexample :
    getattrModel 1 "__timeouts" = AttrResult.found "_FailsafeHandler__timeouts" ∧
      "__timeouts" ∉ instanceAttrs ∧
      getattrModel 1 "__timeouts" ≠ AttrResult.recursionError := by
  decide

/-- C9 (amended): for every attribute name not in the instance dict and
different from the literal `"__timeouts"`, the `__getattr__` fallback reads
`self.main_handler` — never assigned — so the lookup recurses until the
recursion limit, and no lookup ever completes by delegation to the main
handler; only an access that reaches `__getattr__` with the literal name
`"__timeouts"` (which in-class accesses cannot produce, being mangled)
takes the special case. -/
theorem C9_amended_getattr_recursion (fuel : Nat) (name : String)
    (h1 : name ∉ instanceAttrs) (h2 : name ≠ "__timeouts") :
    getattrModel fuel name = AttrResult.recursionError ∧
      ∀ dn, getattrModel fuel name ≠ AttrResult.delegated dn :=
  ⟨getattr_missing_recursion fuel name h1 h2,
   fun dn => getattr_never_delegated fuel name dn⟩

/-- Witness for C9 (amended): looking up `"main_handler"` itself exhausts
any recursion budget. -/
theorem C9_witness :
    getattrModel 3 "main_handler" = AttrResult.recursionError ∧
      ∀ dn, getattrModel 3 "main_handler" ≠ AttrResult.delegated dn :=
  C9_amended_getattr_recursion 3 "main_handler" (by decide) (by decide)

/-- C10: circuit state is keyed by sink identity, not position — a chain
with a duplicated sink holds strictly fewer state records than positions,
and in chain `[0, 0, 1]` with threshold 2 a single dispatch drives sink 0
into cooling because the timeout at the first position and the timeout at
the second position accumulate in the one shared record. -/
theorem C10_state_keyed_by_identity :
    (∀ chain : List Nat, ¬ chain.Nodup → (mkStates chain).length < chain.length) ∧
    ((mkStates [0, 0, 1]).length = 2 ∧
      (emit ⟨1, 2, 10⟩ bhvMainTimeout 0 [0, 0, 1] (mkStates [0, 0, 1])).2.2 =
        [Event.sinkCall 0 false "Timeout", Event.sinkCall 0 false "Timeout",
         Event.sinkCall 1 false "Success"] ∧
      lookupState (emit ⟨1, 2, 10⟩ bhvMainTimeout 0 [0, 0, 1] (mkStates [0, 0, 1])).1 0 =
        ⟨false, 2, 10⟩) :=
  ⟨mkStates_length_lt, by decide⟩

/-- Witness for C10: the duplicated chain `[0, 0, 1]` has two state records
for three positions. -/
theorem C10_witness : (mkStates [0, 0, 1]).length < ([0, 0, 1] : List Nat).length :=
  C10_state_keyed_by_identity.1 [0, 0, 1] (by decide)

/-- C3: with `maxConsecutiveTimeouts = 3`, an always-timing-out primary
(sink 0), an always-succeeding fallback (sink 1), and records dispatched
back-to-back — each of records 2 and 3 before the primary's pending reset
window, and every later record before the cooldown set by record 3 — the
first three records each call the primary (Timeout) and then succeed on the
fallback, and every subsequent record makes no call to the primary at all,
succeeding directly on the fallback. -/
theorem C3_three_timeouts_then_cooling (T R t1 t2 t3 : Nat) (ts : List Nat)
    (h21 : t2 ≤ t1 + R) (h32 : t3 ≤ t2 + R) (hts : ∀ t ∈ ts, t ≤ t3 + R) :
    (dispatchSeq ⟨T, 3, R⟩ bhvMainTimeout [0, 1] (t1 :: t2 :: t3 :: ts)
        (mkStates [0, 1])).2 =
      [[Event.sinkCall 0 false "Timeout", Event.sinkCall 1 false "Success"],
       [Event.sinkCall 0 false "Timeout", Event.sinkCall 1 false "Success"],
       [Event.sinkCall 0 false "Timeout", Event.sinkCall 1 false "Success"]] ++
        ts.map (fun _ => [Event.sinkCall 1 false "Success"]) := by
  have hd2 : decayState [(0, (⟨true, 1, t1 + R⟩ : HandlerState)), (1, initEntry)] 0 t2 =
      [(0, (⟨true, 1, t1 + R⟩ : HandlerState)), (1, initEntry)] := by
    simp only [decayState]
    split
    · next hc =>
        have hc2 : t1 + R < t2 := hc.2
        exact absurd hc2 (by omega)
    · rfl
  have hd3 : decayState [(0, (⟨true, 2, t2 + R⟩ : HandlerState)), (1, initEntry)] 0 t3 =
      [(0, (⟨true, 2, t2 + R⟩ : HandlerState)), (1, initEntry)] := by
    simp only [decayState]
    split
    · next hc =>
        have hc2 : t2 + R < t3 := hc.2
        exact absurd hc2 (by omega)
    · rfl
  have hstep1 : emit ⟨T, 3, R⟩ bhvMainTimeout t1 [0, 1] (mkStates [0, 1]) =
      ([(0, ⟨true, 1, t1 + R⟩), (1, initEntry)], true,
        [Event.sinkCall 0 false "Timeout", Event.sinkCall 1 false "Success"]) := rfl
  have hstep2 : emit ⟨T, 3, R⟩ bhvMainTimeout t2 [0, 1]
      [(0, ⟨true, 1, t1 + R⟩), (1, initEntry)] =
      ([(0, ⟨true, 2, t2 + R⟩), (1, initEntry)], true,
        [Event.sinkCall 0 false "Timeout", Event.sinkCall 1 false "Success"]) := by
    rw [emit_attempt_timeout ⟨T, 3, R⟩ bhvMainTimeout t2 0 [1]
      [(0, ⟨true, 1, t1 + R⟩), (1, initEntry)] rfl rfl]
    dsimp only
    rw [hd2]
    rfl
  have hstep3 : emit ⟨T, 3, R⟩ bhvMainTimeout t3 [0, 1]
      [(0, ⟨true, 2, t2 + R⟩), (1, initEntry)] =
      ([(0, ⟨false, 3, t3 + R⟩), (1, initEntry)], true,
        [Event.sinkCall 0 false "Timeout", Event.sinkCall 1 false "Success"]) := by
    rw [emit_attempt_timeout ⟨T, 3, R⟩ bhvMainTimeout t3 0 [1]
      [(0, ⟨true, 2, t2 + R⟩), (1, initEntry)] rfl rfl]
    dsimp only
    rw [hd3]
    rfl
  have hstep4 : ∀ t, t ≤ t3 + R →
      emit ⟨T, 3, R⟩ bhvMainTimeout t [0, 1]
        [(0, ⟨false, 3, t3 + R⟩), (1, initEntry)] =
        ([(0, ⟨false, 3, t3 + R⟩), (1, initEntry)], true,
          [Event.sinkCall 1 false "Success"]) := by
    intro t ht
    have hrt : ¬ (lookupState
        [(0, (⟨false, 3, t3 + R⟩ : HandlerState)), (1, initEntry)] 0).reset_time < t := by
      intro hlt
      have h2 : t3 + R < t := hlt
      omega
    rw [emit_skip ⟨T, 3, R⟩ bhvMainTimeout t 0 [1]
      [(0, ⟨false, 3, t3 + R⟩), (1, initEntry)] rfl hrt]
    rfl
  have hseq : ∀ (l : List Nat), (∀ t ∈ l, t ≤ t3 + R) →
      dispatchSeq ⟨T, 3, R⟩ bhvMainTimeout [0, 1] l
        [(0, ⟨false, 3, t3 + R⟩), (1, initEntry)] =
        ([(0, ⟨false, 3, t3 + R⟩), (1, initEntry)],
          l.map (fun _ => [Event.sinkCall 1 false "Success"])) := by
    intro l
    induction l with
    | nil => intro _; rfl
    | cons t l ih =>
        intro hl
        simp only [dispatchSeq]
        rw [hstep4 t (hl t (List.mem_cons_self t l))]
        dsimp only
        rw [ih (fun x hx => hl x (List.mem_cons_of_mem t hx))]
        rfl
  simp only [dispatchSeq]
  rw [hstep1]
  dsimp only
  rw [hstep2]
  dsimp only
  rw [hstep3]
  dsimp only
  rw [hseq ts hts]
  rfl

/-- Witness for C3: all five records dispatched at time 0 with
`retry_timeout = 5`. -/
theorem C3_witness :
    (dispatchSeq ⟨1, 3, 5⟩ bhvMainTimeout [0, 1] (0 :: 0 :: 0 :: [0, 0])
        (mkStates [0, 1])).2 =
      [[Event.sinkCall 0 false "Timeout", Event.sinkCall 1 false "Success"],
       [Event.sinkCall 0 false "Timeout", Event.sinkCall 1 false "Success"],
       [Event.sinkCall 0 false "Timeout", Event.sinkCall 1 false "Success"]] ++
        ([0, 0] : List Nat).map (fun _ => [Event.sinkCall 1 false "Success"]) :=
  C3_three_timeouts_then_cooling 1 5 0 0 0 [0, 0] (by omega) (by omega) (by decide)

end Failsafe
